import Mathlib

/-!
Verification of the catalogue ordering pipeline (ashapuraflex).

Shallow embedding of the client-side PDF rendering / page-selection /
order-submission pipeline and of the server-side page-subset extractor,
translated from the TypeScript source:

* `src/components/CatalogueCard.tsx` (`loadCoverImage`) — cover selector;
* `src/pages/CataloguePreviewPage.tsx` (`loadCatalogue`, `loadMorePages`,
  `toggleItemSelection`, `navigateToCart`) — lazy page loader and selection set;
* `src/pages/CartPage.tsx` (`handleSubmitOrder`) — order submission;
* `src/components/CatalogueApp.tsx` — ascending enumeration of the selection;
* the admin panel (`downloadOrderPDF`) — page-subset extractor built on
  pdf-lib `copyPages`.

A PDF document is modelled as the list of its page contents (1-based page
number `p` lives at list index `p - 1`); a rendered page is identified by its
`pageNumber` field, the only attribute the verified properties observe.
-/

namespace AshapuraFlex

/-! ## Cover selector

`CatalogueCard.tsx`, `loadCoverImage`:

    const pageNum = catalogue.cover_page || 1;
    const page = await pdf.getPage(Math.min(pageNum, pdf.numPages));

`cover_page` is a nullable integer column, so the override is `Option Int`;
the JavaScript `||` falls back to `1` exactly when the stored value is falsy,
i.e. absent (`undefined`/`null`) or `0`. -/

/-- Computes `catalogue.cover_page || 1`: the raw page number before clamping. -/
def effectiveCoverPage : Option Int → Int
  | none => 1
  | some v => if v = 0 then 1 else v

/-- The page number handed to `pdf.getPage`: `Math.min(pageNum, pdf.numPages)`. -/
def coverSelector (cover : Option Int) (numPages : Int) : Int :=
  min (effectiveCoverPage cover) numPages

/-! ## Lazy page loader

`CataloguePreviewPage.tsx`.  The batch size is `isMobile ? 2 : 4`, both for the
initial load and for each load-more request.  The loader state a caller can
observe is the list `pdfPages` (we record each page by its `pageNumber`) and
the `pdf.numPages` of the document. -/

/-- Computes `isMobile ? 2 : 4`, the batch size used by `loadCatalogue` and
`loadMorePages`. -/
def batchSize (isMobile : Bool) : Nat :=
  if isMobile then 2 else 4

/-- Observable loader state: the document page count and the materialized
pages (by page number, in the order they sit in the `pdfPages` array). -/
structure LoaderState where
  numPages : Nat
  pdfPages : List Nat
deriving DecidableEq, Repr

/-- The `loadedCount` displayed by the page header (`pdfPages.length`). -/
def LoaderState.loadedCount (s : LoaderState) : Nat :=
  s.pdfPages.length

/-- Models `loadCatalogue`: after fetching the document, pages `1 .. min(numPages,
batch)` are rendered in ascending order and become the initial `pdfPages`. -/
def initialLoad (numPages : Nat) (isMobile : Bool) : LoaderState :=
  ⟨numPages, List.range' 1 (min numPages (batchSize isMobile))⟩

/-- Since `renderPage` can fail (a rejected promise models `DecodeFailure`), the
decoder is abstracted as `ok : Nat → Bool` saying which pages decode.  On
success the observable content is the `pageNumber` itself. -/
def renderPageM (ok : Nat → Bool) (pageNumber : Nat) : Option Nat :=
  if ok pageNumber then some pageNumber else none

/-- The `for` loop of `loadMorePages`: render each page of the batch in turn,
aborting at the first failure (a rejected `await` propagates out of the loop). -/
def renderBatch (render : Nat → Option Nat) : List Nat → Option (List Nat)
  | [] => some []
  | i :: rest =>
    match render i with
    | none => none
    | some p =>
      match renderBatch render rest with
      | none => none
      | some ps => some (p :: ps)

/-- The page numbers a load-more request will render:
`i = pdfPages.length + 1 .. nextBatch` where
`nextBatch = Math.min(pdfDoc.numPages, pdfPages.length + batch)`. -/
def batchList (s : LoaderState) (isMobile : Bool) : List Nat :=
  List.range' (s.pdfPages.length + 1)
    (min s.numPages (s.pdfPages.length + batchSize isMobile) - s.pdfPages.length)

/-- Models `loadMorePages` with an explicit decoder.  The guard
`pdfPages.length >= pdfDoc.numPages` makes the call a no-op; otherwise the
whole batch is rendered and only then appended via
`setPdfPages(prev => [...prev, ...newPages])`.  If any render rejects, the
exception propagates before `setPdfPages` runs, so the component state is
unchanged (the `none` branch). -/
def loadMorePagesWith (render : Nat → Option Nat) (s : LoaderState)
    (isMobile : Bool) : LoaderState :=
  if s.pdfPages.length ≥ s.numPages then s
  else
    match renderBatch render (batchList s isMobile) with
    | some newPages => ⟨s.numPages, s.pdfPages ++ newPages⟩
    | none => s

/-- Models `loadMorePages` on the success path (every page decodes). -/
def loadMorePages (s : LoaderState) (isMobile : Bool) : LoaderState :=
  if s.pdfPages.length ≥ s.numPages then s
  else
    match renderBatch (fun i => some i) (batchList s isMobile) with
    | some newPages => ⟨s.numPages, s.pdfPages ++ newPages⟩
    | none => s

/-- The loader after the initial load followed by `k` load-more requests. -/
def loaderIter (numPages : Nat) (isMobile : Bool) : Nat → LoaderState
  | 0 => initialLoad numPages isMobile
  | k + 1 => loadMorePages (loaderIter numPages isMobile k) isMobile

/-! ## Selection set

`toggleItemSelection` copies the `Set<number>`, deletes the page if present and
adds it otherwise.  A JavaScript `Set` keeps insertion order and holds no
duplicates, so it is modelled as a duplicate-free `List Nat` in insertion
order: `delete` erases the (unique) occurrence, `add` appends. -/

/-- Models `toggleItemSelection` from `CataloguePreviewPage.tsx` and
`CatalogueApp.tsx`. -/
def toggleItemSelection (selected : List Nat) (pageNumber : Nat) : List Nat :=
  if pageNumber ∈ selected then selected.erase pageNumber
  else selected ++ [pageNumber]

/-- Computes `Array.from(selectedItems).sort((a, b) => a - b)`
(`CatalogueApp.tsx` line 337): the members enumerated in ascending order. -/
def ascendingList (selected : List Nat) : List Nat :=
  selected.insertionSort (· ≤ ·)

/-! ## Order submission

`CartPage.tsx`, `handleSubmitOrder`.  The three client-side guards are the
empty-cart check, the mandatory contact fields (JavaScript falsiness of a
string is emptiness) and the presence of a catalogue id.  The insert into the
`orders` table and the notification call are external effects whose success is
a parameter; the notification result is only logged, never branched on. -/

structure CustomerInfo where
  name : String
  email : String
  phone : String
  company_name : String
  address : String
  notes : String
deriving DecidableEq, Repr

/-- The `orders` row built by the insert (the columns the claims observe). -/
structure OrderRecord where
  catalogue_id : String
  catalogue_name : String
  customer_name : String
  customer_email : String
  customer_phone : String
  selected_pages : List Nat
deriving DecidableEq, Repr

/-- Which destructive toast `handleSubmitOrder` raised, if any. -/
inductive SubmitError where
  | emptyCart
  | missingContact
  | noCatalogue
  | insertFailed
deriving DecidableEq, Repr

/-- Outcome of `handleSubmitOrder`: the persisted order row (if the insert
ran and succeeded), whether the success screen was shown, and the error
toast otherwise. -/
structure SubmitResult where
  orderInserted : Option OrderRecord
  showSuccess : Bool
  errorToast : Option SubmitError
deriving DecidableEq, Repr

/-- Models `handleSubmitOrder` (`CartPage.tsx` lines 48 to 126): `insertOk` abstracts
the order-store insert succeeding, `notifyOk` the notification dispatch; the
column `selected_pages` of the row is `selectedPages.sort((a, b) => a - b)`. -/
def handleSubmitOrder (selectedPages : List Nat) (catalogueId catalogueName : String)
    (info : CustomerInfo) (insertOk notifyOk : Bool) : SubmitResult :=
  if selectedPages.length = 0 then
    ⟨none, false, some .emptyCart⟩
  else if info.name = "" ∨ info.email = "" ∨ info.phone = "" then
    ⟨none, false, some .missingContact⟩
  else if catalogueId = "" then
    ⟨none, false, some .noCatalogue⟩
  else if insertOk then
    -- the notification call sits in its own try/catch: `notifyOk` is only
    -- logged, and `setShowSuccess(true)` runs on both branches
    let _ := notifyOk
    ⟨some ⟨catalogueId, catalogueName, info.name, info.email, info.phone,
           selectedPages.insertionSort (· ≤ ·)⟩,
     true, none⟩
  else
    ⟨none, false, some .insertFailed⟩

/-- Models `navigateToCart`: `Array.from(selectedItems)` handed to the cart page. -/
def navigateToCart (selectedItems : List Nat) : List Nat :=
  selectedItems

/-! ## Page-subset extractor

Admin panel, `downloadOrderPDF`: the pdf-lib call `copyPages(originalPdf,
pageIndices)` with `pageIndices = order.selected_pages.map(p => p - 1)`; an
out-of-range index makes `copyPages` throw, aborting the download with no
file produced.  A document is its list of pages. -/

/-- pdf-lib `copyPages`: look up each 0-based index in the source document,
failing if any is out of range. -/
def copyPages {α : Type} (doc : List α) : List Nat → Option (List α)
  | [] => some []
  | i :: rest =>
    match doc[i]? with
    | none => none
    | some pg =>
      match copyPages doc rest with
      | none => none
      | some ps => some (pg :: ps)

/-- Document construction in `downloadOrderPDF`: copy the selected pages
(1-based, converted to 0-based indices) into a fresh document, appending them
in the given order. -/
def downloadOrderPDF {α : Type} (doc : List α) (selected_pages : List Nat) :
    Option (List α) :=
  copyPages doc (selected_pages.map (fun p => p - 1))

end AshapuraFlex

namespace AshapuraFlex

/-- C3 counterexample: a negative stored override (representable in the
`cover_page` integer column) is truthy in JavaScript, so it bypasses the
`|| 1` fallback, and `Math.min` does not raise it back into range: with
`totalPageCount = 5` and override `-3` the selector returns `-3`, which is
not in `[1, 5]`. -/
theorem coverSelector_claim3_counterexample :
    coverSelector (some (-3)) 5 = -3 ∧ ¬ (1 ≤ coverSelector (some (-3)) 5) := by
  constructor
  · decide
  · decide

/-- C3 (amended): for a document with at least one page and an override that
is absent or a nonnegative integer, the cover selector returns a page number
in `[1, totalPageCount]`: the override when it is within `[1, totalPageCount]`,
page 1 when the override is absent or `0`, and `totalPageCount` when the
override exceeds it. -/
theorem coverSelector_claim3_amended (cover : Option Int) (n : Int)
    (hn : 1 ≤ n) (hcover : ∀ v, cover = some v → 0 ≤ v) :
    (1 ≤ coverSelector cover n ∧ coverSelector cover n ≤ n) ∧
      (∀ v, cover = some v → 1 ≤ v → v ≤ n → coverSelector cover n = v) ∧
      ((cover = none ∨ cover = some 0) → coverSelector cover n = 1) ∧
      ∀ v, cover = some v → n < v → coverSelector cover n = n := by
  cases cover with
  | none =>
    refine ⟨⟨le_min le_rfl hn, min_le_right _ _⟩, ?_, ?_, ?_⟩
    · intro v hv
      cases hv
    · intro _
      exact min_eq_left hn
    · intro v hv
      cases hv
  | some w =>
    have h0 : 0 ≤ w := hcover w rfl
    by_cases hw : w = 0
    · subst hw
      have hcs : coverSelector (some 0) n = min 1 n := by
        simp [coverSelector, effectiveCoverPage]
      refine ⟨⟨?_, ?_⟩, ?_, ?_, ?_⟩
      · rw [hcs]
        exact le_min le_rfl hn
      · rw [hcs]
        exact min_le_right _ _
      · intro v hv h1 h2
        cases hv
        exact absurd h1 (by omega)
      · intro _
        rw [hcs]
        exact min_eq_left hn
      · intro v hv hgt
        cases hv
        exact absurd hn (by omega)
    · have hcs : coverSelector (some w) n = min w n := by
        simp only [coverSelector, effectiveCoverPage, if_neg hw]
      refine ⟨⟨?_, ?_⟩, ?_, ?_, ?_⟩
      · rw [hcs]
        exact le_min (by omega) hn
      · rw [hcs]
        exact min_le_right _ _
      · intro v hv h1 h2
        cases hv
        rw [hcs]
        exact min_eq_left h2
      · rintro (h | h)
        · exact Option.noConfusion h
        · rw [Option.some.injEq] at h
          exact absurd h hw
      · intro v hv hgt
        cases hv
        rw [hcs]
        exact min_eq_right (by omega)

theorem coverSelector_claim3_amended_witness :
    coverSelector (some 3) 5 = 3 ∧ coverSelector (some 9) 5 = 5 ∧
      coverSelector (some 0) 5 = 1 :=
  ⟨(coverSelector_claim3_amended (some 3) 5 (by decide)
      (fun v hv => by cases hv; decide)).2.1 3 rfl (by decide) (by decide),
   (coverSelector_claim3_amended (some 9) 5 (by decide)
      (fun v hv => by cases hv; decide)).2.2.2 9 rfl (by decide),
   (coverSelector_claim3_amended (some 0) 5 (by decide)
      (fun v hv => by cases hv; decide)).2.2.1 (Or.inr rfl)⟩

/-- C10: the override falls back to page 1 exactly when it is falsy
(absent or `0`), and a nonzero override is used as the pre-clamping page. -/
theorem coverSelector_claim10_falsy (cover : Option Int) (n : Int) (hn : 1 ≤ n) :
    ((cover = none ∨ cover = some 0) → coverSelector cover n = 1) ∧
      ∀ v, cover = some v → v ≠ 0 → effectiveCoverPage cover = v := by
  constructor
  · rintro (rfl | rfl)
    · exact min_eq_left hn
    · simp only [coverSelector, effectiveCoverPage, if_pos rfl]
      exact min_eq_left hn
  · intro v hv hvz
    cases hv
    simp only [effectiveCoverPage, if_neg hvz]

theorem coverSelector_claim10_witness :
    coverSelector (some 0) 5 = 1 :=
  (coverSelector_claim10_falsy (some 0) 5 (by decide)).1 (Or.inr rfl)

/-- C2: `handleSubmitOrder` never consults the `totalPageCount` of the
referenced document; the submission with `selectedPages = [3, 7, 12]` is
persisted unchanged whether the document has 12 pages or only 10.  Against a
10-page document the persisted order even breaks fulfillment later:
`downloadOrderPDF` fails on page 12.  (Against the 12-page document both the
submission and the extraction succeed, as the claim says.) -/
theorem submitOrder_claim2_no_range_validation :
    handleSubmitOrder [3, 7, 12] "cat-1" "Cat" ⟨"A", "a@b.c", "123", "", "", ""⟩ true true
        = ⟨some ⟨"cat-1", "Cat", "A", "a@b.c", "123", [3, 7, 12]⟩, true, none⟩ ∧
      ¬ (∀ p ∈ [3, 7, 12], p ≤ 10) ∧ (∀ p ∈ [3, 7, 12], 1 ≤ p ∧ p ≤ 12) ∧
      downloadOrderPDF (List.range' 1 12) [3, 7, 12] = some [3, 7, 12] ∧
      downloadOrderPDF (List.range' 1 10) [3, 7, 12] = none := by
  refine ⟨by decide, by decide, by decide, by decide, by decide⟩

/-- C8: once the three client-side guards pass and the order-store insert
succeeds, the order row is persisted and the success screen is shown, for
either outcome of the notification dispatch; the whole submission result is
independent of `notifyOk`. -/
theorem submitOrder_claim8_notify_independent
    (pages : List Nat) (cid cname : String) (info : CustomerInfo) (notifyOk : Bool)
    (hp : pages ≠ []) (hn : info.name ≠ "") (he : info.email ≠ "")
    (hph : info.phone ≠ "") (hc : cid ≠ "") :
    (handleSubmitOrder pages cid cname info true notifyOk).orderInserted =
        some ⟨cid, cname, info.name, info.email, info.phone,
              pages.insertionSort (· ≤ ·)⟩ ∧
      (handleSubmitOrder pages cid cname info true notifyOk).showSuccess = true ∧
      (handleSubmitOrder pages cid cname info true notifyOk).errorToast = none ∧
      handleSubmitOrder pages cid cname info true true =
        handleSubmitOrder pages cid cname info true false := by
  have h0 : ¬ pages.length = 0 := by simpa [List.length_eq_zero] using hp
  simp [handleSubmitOrder, h0, hn, he, hph, hc]

theorem submitOrder_claim8_witness :
    (handleSubmitOrder [1] "c" "N" ⟨"A", "E", "P", "", "", ""⟩ true false).showSuccess
      = true :=
  (submitOrder_claim8_notify_independent [1] "c" "N" ⟨"A", "E", "P", "", "", ""⟩ false
    (by decide) (by decide) (by decide) (by decide) (by decide)).2.1

/-- C9: any order row `handleSubmitOrder` actually creates carries a
`selected_pages` list that is strictly ascending (the duplicate-free cart
sorted with `(a, b) => a - b`) and non-empty (the empty cart is rejected
before the insert). -/
theorem submitOrder_claim9_pages_strictly_ascending
    (pages : List Nat) (cid cname : String) (info : CustomerInfo)
    (insertOk notifyOk : Bool) (hnd : pages.Nodup) (o : OrderRecord)
    (ho : (handleSubmitOrder pages cid cname info insertOk notifyOk).orderInserted
            = some o) :
    o.selected_pages.Sorted (· < ·) ∧ o.selected_pages ≠ [] := by
  by_cases h0 : pages.length = 0
  · simp [handleSubmitOrder, h0] at ho
  by_cases h1 : info.name = "" ∨ info.email = "" ∨ info.phone = ""
  · simp [handleSubmitOrder, h0, h1] at ho
  by_cases h2 : cid = ""
  · simp [handleSubmitOrder, h0, h1, h2] at ho
  by_cases h3 : insertOk = true
  · subst h3
    simp [handleSubmitOrder, h0, h1, h2] at ho
    have hperm := List.perm_insertionSort (· ≤ ·) pages
    have hsortle := List.sorted_insertionSort (· ≤ ·) pages
    have hnd2 : (pages.insertionSort (· ≤ ·)).Nodup := hperm.symm.nodup hnd
    have hlen : (pages.insertionSort (· ≤ ·)).length = pages.length :=
      hperm.length_eq
    subst ho
    refine ⟨hsortle.lt_of_le hnd2, ?_⟩
    intro hnil
    have hnil2 : pages.insertionSort (· ≤ ·) = [] := hnil
    rw [hnil2] at hlen
    exact h0 hlen.symm
  · have h3f : insertOk = false := by
      cases insertOk
      · rfl
      · exact absurd rfl h3
    subst h3f
    simp [handleSubmitOrder, h0, h1, h2] at ho

theorem submitOrder_claim9_witness :
    (⟨"c", "N", "A", "E", "P", [1, 2]⟩ : OrderRecord).selected_pages.Sorted (· < ·) ∧
      (⟨"c", "N", "A", "E", "P", [1, 2]⟩ : OrderRecord).selected_pages ≠ [] :=
  submitOrder_claim9_pages_strictly_ascending [2, 1] "c" "N" ⟨"A", "E", "P", "", "", ""⟩
    true true (by decide) ⟨"c", "N", "A", "E", "P", [1, 2]⟩ (by decide)

/-- The function `copyPages` succeeds on in-range indices and copies exactly the page at
each index, in order. -/
theorem copyPages_spec {α : Type} (doc : List α) (idx : List Nat)
    (h : ∀ i ∈ idx, i < doc.length) :
    (copyPages doc idx).map List.length = some idx.length ∧
      ∀ k (hk : k < idx.length),
        (copyPages doc idx).bind (fun out => out[k]?) = doc[idx.get ⟨k, hk⟩]? := by
  induction idx with
  | nil =>
    refine ⟨rfl, ?_⟩
    intro k hk
    exact absurd hk (by simp)
  | cons i rest ih =>
    have hi : i < doc.length := h i (List.mem_cons_self _ _)
    obtain ⟨hlen, hget⟩ := ih (fun j hj => h j (List.mem_cons_of_mem _ hj))
    obtain ⟨out, hout⟩ : ∃ out, copyPages doc rest = some out := by
      cases hcp : copyPages doc rest with
      | none => rw [hcp] at hlen; cases hlen
      | some out => exact ⟨out, rfl⟩
    have hdoc : doc[i]? = some (doc.get ⟨i, hi⟩) := by
      rw [List.getElem?_eq_getElem hi]
      rfl
    have hcons : copyPages doc (i :: rest) = some (doc.get ⟨i, hi⟩ :: out) := by
      simp only [copyPages, hdoc, hout]
    rw [hout] at hlen hget
    refine ⟨?_, ?_⟩
    · rw [hcons]
      simpa using hlen
    · intro k hk
      rw [hcons]
      cases k with
      | zero =>
        simp [hdoc]
      | succ k =>
        have hk2 : k < rest.length := by simpa using hk
        simpa using hget k hk2

/-- C1: on a valid page list (ascending, duplicate-free, entries in
`[1, totalPageCount]`), `downloadOrderPDF` produces a document with one page
per list entry, whose page `i` is page `P[i]` of the source document. -/
theorem extractor_claim1_spec {α : Type} (doc : List α) (P : List Nat)
    (_hasc : P.Sorted (· < ·)) (hrange : ∀ p ∈ P, 1 ≤ p ∧ p ≤ doc.length) :
    (downloadOrderPDF doc P).map List.length = some P.length ∧
      ∀ i (hi : i < P.length),
        (downloadOrderPDF doc P).bind (fun out => out[i]?) =
          doc[P.get ⟨i, hi⟩ - 1]? := by
  have hidx : ∀ j ∈ P.map (fun p => p - 1), j < doc.length := by
    intro j hj
    obtain ⟨p, hp, rfl⟩ := List.mem_map.mp hj
    obtain ⟨hp1, hp2⟩ := hrange p hp
    omega
  obtain ⟨hlen, hget⟩ := copyPages_spec doc (P.map (fun p => p - 1)) hidx
  refine ⟨?_, ?_⟩
  · rw [downloadOrderPDF, hlen, List.length_map]
  · intro i hi
    have hi2 : i < (P.map (fun p => p - 1)).length := by simpa using hi
    have := hget i hi2
    rw [downloadOrderPDF, this]
    congr 1
    simp [List.get_eq_getElem]

theorem extractor_claim1_witness :
    (downloadOrderPDF [10, 20, 30, 40] [2, 4]).map List.length = some 2 ∧
      (downloadOrderPDF [10, 20, 30, 40] [2, 4]).bind (fun out => out[0]?) = some 20 ∧
      (downloadOrderPDF [10, 20, 30, 40] [2, 4]).bind (fun out => out[1]?) = some 40 := by
  have h := extractor_claim1_spec [10, 20, 30, 40] [2, 4] (by decide) (by decide)
  exact ⟨h.1, h.2 0 (by decide), h.2 1 (by decide)⟩

/-- When every page decodes, the batch loop returns the whole batch. -/
theorem renderBatch_some (l : List Nat) :
    renderBatch (fun i => some i) l = some l := by
  induction l with
  | nil => rfl
  | cons i rest ih => simp [renderBatch, ih]

/-- Unfolding `loadMorePages` on the success path: no-op past the guard, otherwise the
batch is appended. -/
theorem loadMorePages_eq (s : LoaderState) (m : Bool) :
    loadMorePages s m =
      if s.pdfPages.length ≥ s.numPages then s
      else ⟨s.numPages, s.pdfPages ++ batchList s m⟩ := by
  simp only [loadMorePages, renderBatch_some]

theorem loadMorePages_numPages (s : LoaderState) (m : Bool) :
    (loadMorePages s m).numPages = s.numPages := by
  rw [loadMorePages_eq]
  split <;> rfl

theorem loadMorePages_loadedCount (s : LoaderState) (m : Bool) :
    (loadMorePages s m).loadedCount =
      if s.pdfPages.length ≥ s.numPages then s.loadedCount
      else min s.numPages (s.pdfPages.length + batchSize m) := by
  rw [loadMorePages_eq]
  split
  · rfl
  · simp only [LoaderState.loadedCount, List.length_append, batchList,
      List.length_range']
    omega

theorem loaderIter_numPages (n : Nat) (m : Bool) (k : Nat) :
    (loaderIter n m k).numPages = n := by
  induction k with
  | zero => rfl
  | succ k ih => rw [loaderIter, loadMorePages_numPages, ih]

theorem loadMorePages_mono (s : LoaderState) (m : Bool) :
    s.loadedCount ≤ (loadMorePages s m).loadedCount := by
  rw [loadMorePages_loadedCount]
  split
  · exact le_rfl
  · simp only [LoaderState.loadedCount] at *
    omega

theorem loaderIter_le (n : Nat) (m : Bool) (k : Nat) :
    (loaderIter n m k).loadedCount ≤ n := by
  induction k with
  | zero =>
    simp only [loaderIter, initialLoad, LoaderState.loadedCount,
      List.length_range']
    omega
  | succ k ih =>
    rw [loaderIter, loadMorePages_loadedCount]
    split
    · exact ih
    · rw [loaderIter_numPages]
      omega

/-- C4: across the initial load and any number of load-more requests, the
externally visible `loadedCount` never decreases from one step to the next
and never exceeds the page count of the document. -/
theorem loader_claim4_monotone_bounded (n : Nat) (m : Bool) (k : Nat) :
    (loaderIter n m k).loadedCount ≤ n ∧
      (loaderIter n m k).loadedCount ≤ (loaderIter n m (k + 1)).loadedCount :=
  ⟨loaderIter_le n m k, loadMorePages_mono (loaderIter n m k) m⟩

/-- C5: the initial load materializes `min(totalPages, batch)` pages in
ascending order from page 1; each load-more appends the next
`min(totalPages - loadedCount, batch)` pages in order; a loader whose
`loadedCount` equals `totalPages` treats load-more as a no-op; and the
`totalPageCount = 10`, batch-4 scenario runs 4 → 8 → 10 → 10. -/
theorem loader_claim5_batches (n L : Nat) (m : Bool) (s : LoaderState)
    (h1 : s.numPages = n) (h2 : s.pdfPages = List.range' 1 L) (h3 : L < n) :
    (initialLoad n m).pdfPages = List.range' 1 (min n (batchSize m)) ∧
      loadMorePages s m =
        ⟨n, List.range' 1 L ++ List.range' (L + 1) (min (n - L) (batchSize m))⟩ ∧
      (∀ t : LoaderState, t.loadedCount = t.numPages → loadMorePages t m = t) ∧
      (loaderIter 10 false 0).pdfPages = List.range' 1 4 ∧
      (loaderIter 10 false 1).loadedCount = 8 ∧
      (loaderIter 10 false 2).loadedCount = 10 ∧
      (loaderIter 10 false 2).pdfPages = List.range' 1 10 ∧
      loaderIter 10 false 3 = loaderIter 10 false 2 := by
  refine ⟨rfl, ?_, ?_, by decide, by decide, by decide, by decide, by decide⟩
  · rw [loadMorePages_eq]
    rw [if_neg (by simp [h1, h2, List.length_range']; omega)]
    have hc : min n (L + batchSize m) - L = min (n - L) (batchSize m) := by omega
    rw [h1, h2]
    simp only [batchList, h1, h2, List.length_range']
    rw [hc]
  · intro t ht
    have hge : t.pdfPages.length ≥ t.numPages := by
      have h := ht
      simp only [LoaderState.loadedCount] at h
      omega
    rw [loadMorePages_eq, if_pos hge]

theorem loader_claim5_witness :
    loadMorePages ⟨10, List.range' 1 4⟩ false =
        ⟨10, List.range' 1 4 ++ List.range' 5 4⟩ ∧
      loaderIter 10 false 3 = loaderIter 10 false 2 :=
  ⟨(loader_claim5_batches 10 4 false ⟨10, List.range' 1 4⟩ rfl rfl (by decide)).2.1,
   (loader_claim5_batches 10 4 false ⟨10, List.range' 1 4⟩ rfl rfl
      (by decide)).2.2.2.2.2.2.2⟩

/-- A batch loop containing a failing page aborts with no result. -/
theorem renderBatch_none_of_mem (render : Nat → Option Nat) (l : List Nat)
    (i : Nat) (hi : i ∈ l) (hfail : render i = none) :
    renderBatch render l = none := by
  induction l with
  | nil => cases hi
  | cons j rest ih =>
    rcases List.mem_cons.mp hi with rfl | hmem
    · simp [renderBatch, hfail]
    · simp only [renderBatch]
      cases render j with
      | none => rfl
      | some p => rw [ih hmem]

/-- C7: if any page of a load-more batch fails to decode, the loader state is
unchanged — the materialized sequence and `loadedCount` stay exactly as they
were, so no partial batch is exposed — and retrying the same batch with a
working decoder performs the normal successful load-more. -/
theorem loader_claim7_batch_abort (s : LoaderState) (m : Bool)
    (ok : Nat → Bool) (i : Nat) (hi : i ∈ batchList s m) (hfail : ok i = false) :
    loadMorePagesWith (renderPageM ok) s m = s ∧
      (loadMorePagesWith (renderPageM ok) s m).pdfPages = s.pdfPages ∧
      (loadMorePagesWith (renderPageM ok) s m).loadedCount = s.loadedCount ∧
      loadMorePagesWith (renderPageM (fun _ => true)) s m = loadMorePages s m := by
  have hnone : renderPageM ok i = none := by
    simp [renderPageM, hfail]
  have habort : loadMorePagesWith (renderPageM ok) s m = s := by
    rw [loadMorePagesWith]
    split
    · rfl
    · rw [renderBatch_none_of_mem (renderPageM ok) (batchList s m) i hi hnone]
  have hretry : renderPageM (fun _ => true) = fun j => some j := by
    funext j
    rfl
  refine ⟨habort, by rw [habort], by rw [habort], ?_⟩
  rw [hretry]
  rfl

theorem loader_claim7_witness :
    loadMorePagesWith (renderPageM (fun j => !(j == 6))) ⟨10, [1, 2, 3, 4]⟩ false
      = ⟨10, [1, 2, 3, 4]⟩ :=
  (loader_claim7_batch_abort ⟨10, [1, 2, 3, 4]⟩ false (fun j => !(j == 6)) 6
    (by decide) rfl).1

/-- Toggling a sequence of values that are distinct and all fresh for the
accumulator appends them in order. -/
theorem foldl_toggle_fresh (vs : List Nat) :
    ∀ acc : List Nat, vs.Nodup → (∀ x ∈ vs, x ∉ acc) →
      vs.foldl toggleItemSelection acc = acc ++ vs := by
  induction vs with
  | nil =>
    intro acc _ _
    simp
  | cons v rest ih =>
    intro acc hnd hdisj
    have hv : v ∉ acc := hdisj v (List.mem_cons_self _ _)
    have hstep : toggleItemSelection acc v = acc ++ [v] := by
      rw [toggleItemSelection, if_neg hv]
    rw [List.foldl_cons, hstep,
      ih (acc ++ [v]) (List.Nodup.of_cons hnd) ?_, List.append_assoc]
    · rfl
    · intro x hx
      simp only [List.mem_append, List.mem_singleton]
      rintro (hxa | rfl)
      · exact hdisj x (List.mem_cons_of_mem _ hx) hxa
      · exact (List.nodup_cons.mp hnd).1 hx

/-- C6: double toggle restores membership, and toggling `k` distinct pages
into an empty selection makes the ascending enumeration exactly those `k`
values sorted ascending (it is sorted and a permutation of them). -/
theorem selection_claim6_toggle (sel : List Nat) (x : Nat) (hsel : sel.Nodup)
    (vs : List Nat) (hvs : vs.Nodup) :
    ((x ∈ toggleItemSelection (toggleItemSelection sel x) x) ↔ x ∈ sel) ∧
      ascendingList (vs.foldl toggleItemSelection []) = ascendingList vs ∧
      (ascendingList (vs.foldl toggleItemSelection [])).Sorted (· ≤ ·) ∧
      (ascendingList (vs.foldl toggleItemSelection [])).Perm vs := by
  have hfold : vs.foldl toggleItemSelection [] = vs :=
    foldl_toggle_fresh vs [] hvs (by simp)
  refine ⟨?_, by rw [hfold], ?_, ?_⟩
  · by_cases hx : x ∈ sel
    · have ht1 : toggleItemSelection sel x = sel.erase x := by
        rw [toggleItemSelection, if_pos hx]
      have hx2 : x ∉ sel.erase x := fun hmem =>
        (hsel.mem_erase_iff.mp hmem).1 rfl
      have ht2 : toggleItemSelection (sel.erase x) x = sel.erase x ++ [x] := by
        rw [toggleItemSelection, if_neg hx2]
      rw [ht1, ht2]
      simp [hx]
    · have ht1 : toggleItemSelection sel x = sel ++ [x] := by
        rw [toggleItemSelection, if_neg hx]
      have hnd2 : (sel ++ [x]).Nodup :=
        hsel.append (List.nodup_singleton x)
          (fun a ha hax => hx (by rwa [List.mem_singleton.mp hax] at ha))
      have hx1 : x ∈ sel ++ [x] := by simp
      have ht2 : toggleItemSelection (sel ++ [x]) x = (sel ++ [x]).erase x := by
        rw [toggleItemSelection, if_pos hx1]
      rw [ht1, ht2]
      constructor
      · intro hmem
        exact absurd rfl (hnd2.mem_erase_iff.mp hmem).1
      · intro hmem
        exact absurd hmem hx
  · rw [hfold]
    exact List.sorted_insertionSort (· ≤ ·) vs
  · rw [hfold]
    exact List.perm_insertionSort (· ≤ ·) vs

theorem selection_claim6_witness :
    ((5 ∈ toggleItemSelection (toggleItemSelection [5, 2, 9] 5) 5) ↔
        5 ∈ [5, 2, 9]) ∧
      ascendingList ([5, 2, 9].foldl toggleItemSelection []) =
        ascendingList [5, 2, 9] ∧
      (ascendingList ([5, 2, 9].foldl toggleItemSelection [])).Sorted (· ≤ ·) ∧
      (ascendingList ([5, 2, 9].foldl toggleItemSelection [])).Perm [5, 2, 9] :=
  selection_claim6_toggle [5, 2, 9] 5 (by decide) [5, 2, 9] (by decide)

end AshapuraFlex
